import Mathlib

/-!
Verification of the concurrency_utils task-queue library.

The development shallowly embeds the three queue variants
(`mpmc_blocking_queue`, `spmc_blocking_queue`, `spmc_queue`) and the
`deferred_thread_pool` from the C++ headers.  Machine integers are modelled
as `Nat`; the nonblocking queue's read cursor is a `std::atomic_uint`
(32 bits wide on all mainstream platforms), so its stores reduce modulo
`2 ^ 32`.
-/

namespace ConcurrencyUtils

/-- Number of values of the C++ type unsigned int (32 bits). -/
def uintCard : Nat := 2 ^ 32

/-!  MPMC blocking queue (queues/mpmc_blocking.h).  All five operations run
under one mutex; sequentially they act on the underlying deque, modelled as
a list with its front at the head. -/

structure mpmc_blocking_queue (T : Type) where
  data : List T
deriving DecidableEq

namespace mpmc_blocking_queue

/-- Default constructor: empty deque. -/
def init (T : Type) : mpmc_blocking_queue T := ⟨[]⟩

/-- push: data.push_back(f). -/
def push (q : mpmc_blocking_queue T) (f : T) : mpmc_blocking_queue T :=
  ⟨q.data ++ [f]⟩

/-- try_pop: if the deque is empty return false, otherwise move out the
front element and pop it.  The C++ out-parameter and boolean result are
modelled together as an `Option`. -/
def try_pop (q : mpmc_blocking_queue T) : Option T × mpmc_blocking_queue T :=
  match q.data with
  | [] => (none, q)
  | f :: rest => (some f, ⟨rest⟩)

/-- clear: data.clear(). -/
def clear (q : mpmc_blocking_queue T) : mpmc_blocking_queue T := ⟨[]⟩

/-- empty: data.empty(). -/
def empty (q : mpmc_blocking_queue T) : Bool := q.data.isEmpty

/-- size: data.size(). -/
def size (q : mpmc_blocking_queue T) : Nat := q.data.length

end mpmc_blocking_queue

/-!  SPMC blocking queue (queues/spmc_blocking.h).  Sequentially identical
to the MPMC variant; only pop takes the mutex. -/

structure spmc_blocking_queue (T : Type) where
  data : List T
deriving DecidableEq

namespace spmc_blocking_queue

/-- Default constructor: empty deque. -/
def init (T : Type) : spmc_blocking_queue T := ⟨[]⟩

/-- push: data.push_back(f), unsynchronized. -/
def push (q : spmc_blocking_queue T) (f : T) : spmc_blocking_queue T :=
  ⟨q.data ++ [f]⟩

/-- try_pop: under the mutex, fail on empty else move out the front. -/
def try_pop (q : spmc_blocking_queue T) : Option T × spmc_blocking_queue T :=
  match q.data with
  | [] => (none, q)
  | f :: rest => (some f, ⟨rest⟩)

/-- clear: data.clear(), unsynchronized. -/
def clear (q : spmc_blocking_queue T) : spmc_blocking_queue T := ⟨[]⟩

/-- empty: data.empty(). -/
def empty (q : spmc_blocking_queue T) : Bool := q.data.isEmpty

/-- size: data.size(). -/
def size (q : spmc_blocking_queue T) : Nat := q.data.length

end spmc_blocking_queue

/-!  SPMC nonblocking queue (queues/spmc_nonblocking.h).  The backing
`std::vector` is the list `data`; `next_slot` is the 32-bit atomic cursor. -/

structure spmc_queue (T : Type) where
  next_slot : Nat
  data : List T
deriving DecidableEq

namespace spmc_queue

/-- Default constructor: next_slot 0, empty vector. -/
def init (T : Type) : spmc_queue T := ⟨0, []⟩

/-- push: data.push_back(f). -/
def push (q : spmc_queue T) (f : T) : spmc_queue T :=
  { q with data := q.data ++ [f] }

/-- try_pop: read = next_slot.fetch_add(1) claims an index (the stored
cursor wraps modulo the unsigned-int cardinality); if read is inside the
vector, copy out data[read], else store data.size() back into the 32-bit
cursor and report failure. -/
def try_pop (q : spmc_queue T) : Option T × spmc_queue T :=
  let read := q.next_slot
  if h : read < q.data.length then
    (some (q.data.get ⟨read, h⟩), { q with next_slot := (read + 1) % uintCard })
  else
    (none, { q with next_slot := q.data.length % uintCard })

/-- clear: data.clear() first, then the atomic store next_slot = 0. -/
def clear (q : spmc_queue T) : spmc_queue T :=
  { q with data := [], next_slot := 0 }

/-- First half of clear: the non-atomic data.clear(). -/
def clear_data (q : spmc_queue T) : spmc_queue T := { q with data := [] }

/-- Second half of clear: the atomic store next_slot = 0. -/
def clear_cursor (q : spmc_queue T) : spmc_queue T := { q with next_slot := 0 }

/-- size: load the cursor; if it is below the vector length return the
difference, else 0. -/
def size (q : spmc_queue T) : Nat :=
  if q.next_slot < q.data.length then q.data.length - q.next_slot else 0

/-- empty: size() == 0. -/
def empty (q : spmc_queue T) : Bool := q.size = 0

/-- The state of the queue visible after the first `i` of the two atomic
steps of clear() (i = 0: before, i = 1: data wiped, i = 2: cursor reset). -/
def clear_view (q : spmc_queue T) : Nat → spmc_queue T
  | 0 => q
  | 1 => clear_data q
  | _ => clear_cursor (clear_data q)

end spmc_queue

/-! Sequential driver loops shared by several claims: pushing a whole list
and popping a fixed number of times. -/

/-- Push every element of a list in order (MPMC variant). -/
def push_all_m (q : mpmc_blocking_queue Nat) (xs : List Nat) : mpmc_blocking_queue Nat :=
  xs.foldl mpmc_blocking_queue.push q

/-- Push every element of a list in order (SPMC blocking variant). -/
def push_all_sb (q : spmc_blocking_queue Nat) (xs : List Nat) : spmc_blocking_queue Nat :=
  xs.foldl spmc_blocking_queue.push q

/-- Push every element of a list in order (SPMC nonblocking variant). -/
def push_all_s (q : spmc_queue Nat) (xs : List Nat) : spmc_queue Nat :=
  xs.foldl spmc_queue.push q

/-- Pop `n` times, collecting each try_pop result in order (MPMC). -/
def drain_m (q : mpmc_blocking_queue Nat) : Nat → List (Option Nat)
  | 0 => []
  | n + 1 =>
    let p := q.try_pop
    p.1 :: drain_m p.2 n

/-- Pop `n` times, collecting each try_pop result in order (SPMC blocking). -/
def drain_sb (q : spmc_blocking_queue Nat) : Nat → List (Option Nat)
  | 0 => []
  | n + 1 =>
    let p := q.try_pop
    p.1 :: drain_sb p.2 n

/-- Pop `n` times, collecting each try_pop result in order (SPMC nonblocking). -/
def drain_s (q : spmc_queue Nat) : Nat → List (Option Nat)
  | 0 => []
  | n + 1 =>
    let p := q.try_pop
    p.1 :: drain_s p.2 n

/-- The queue left after `n` try_pop calls (MPMC). -/
def pop_iter_m (q : mpmc_blocking_queue Nat) : Nat → mpmc_blocking_queue Nat
  | 0 => q
  | n + 1 => pop_iter_m q.try_pop.2 n

/-- The queue left after `n` try_pop calls (SPMC blocking). -/
def pop_iter_sb (q : spmc_blocking_queue Nat) : Nat → spmc_blocking_queue Nat
  | 0 => q
  | n + 1 => pop_iter_sb q.try_pop.2 n

/-- The queue left after `n` try_pop calls (SPMC nonblocking). -/
def pop_iter_s (q : spmc_queue Nat) : Nat → spmc_queue Nat
  | 0 => q
  | n + 1 => pop_iter_s q.try_pop.2 n

/-- A vector of 2^32 tasks, enough to wrap the 32-bit read cursor. -/
def big_list : List Nat := List.replicate uintCard 0

/-! Thread bookkeeping of deferred_thread_pool (thread_pool.h).  Only the
fields the thread-count claims read: the stored `thread_count` and the
number of live entries of the `threads` vector. -/

structure deferred_thread_pool where
  thread_count : Nat
  threads : Nat
deriving DecidableEq

namespace deferred_thread_pool

/-- create_threads: replace a zero thread_count by 1, then emplace that
many worker threads. -/
def create_threads (p : deferred_thread_pool) : deferred_thread_pool :=
  let tc := if p.thread_count = 0 then 1 else p.thread_count
  { thread_count := tc, threads := p.threads + tc }

/-- Default constructor: thread_count 0, no threads created. -/
def mk_default : deferred_thread_pool := ⟨0, 0⟩

/-- Counted constructor: store the requested count, then create_threads. -/
def mk_counted (in_thread_count : Nat) : deferred_thread_pool :=
  create_threads ⟨in_thread_count, 0⟩

/-- destroy_threads: join and drop every thread (thread_count is kept). -/
def destroy_threads (p : deferred_thread_pool) : deferred_thread_pool :=
  { p with threads := 0 }

/-- reset: drain, destroy the workers, store max(n, 1), recreate. -/
def reset (in_thread_count : Nat) (p : deferred_thread_pool) : deferred_thread_pool :=
  create_threads { destroy_threads p with thread_count := max in_thread_count 1 }

/-- get_thread_count: return the stored thread_count. -/
def get_thread_count (p : deferred_thread_pool) : Nat := p.thread_count

end deferred_thread_pool

/-! Interleaved model of concurrent try_pop calls on the nonblocking queue.
Each call performs at most two shared accesses, in order: the atomic
fetch-and-increment claiming an index, and (only on a miss) the store that
pins the cursor back to the vector length.  The producer is quiesced, so
the backing vector is fixed and only its length matters.  A schedule is a
list of these accesses; any interleaving of any number of consumer threads
is such a schedule. -/

/-- One atomic shared access of a try_pop call, tagged by the call id. -/
inductive pop_step
  | fetch (id : Nat)
  | pin (id : Nat)
deriving DecidableEq

/-- Shared state: the 32-bit cursor and the log of claimed indices as
(call id, claimed index) pairs in fetch order. -/
structure pop_state where
  next_slot : Nat
  reads : List (Nat × Nat)
deriving DecidableEq

/-- Effect of one shared access; len is the fixed vector length.  A fetch
returns the cursor and bumps it modulo 2^32; a pin is performed only by a
call whose claimed index missed (index at least len) and stores the
truncated length. -/
def pop_step_apply (len : Nat) (s : pop_state) : pop_step → pop_state
  | .fetch id => ⟨(s.next_slot + 1) % uintCard, s.reads ++ [(id, s.next_slot)]⟩
  | .pin id =>
    match s.reads.find? (fun p => p.1 == id) with
    | some p => if len ≤ p.2 then { s with next_slot := len % uintCard } else s
    | none => s

/-- Run a whole schedule from the fresh post-push state (cursor 0). -/
def pop_exec (len : Nat) (tr : List pop_step) : pop_state :=
  tr.foldl (pop_step_apply len) ⟨0, []⟩

/-- The call ids that perform their fetch, in schedule order. -/
def fetch_ids (tr : List pop_step) : List Nat :=
  tr.filterMap fun st =>
    match st with
    | .fetch id => some id
    | .pin _ => none

/-- The successful claims: log entries whose index is inside the vector;
such a call copies out that element and returns true. -/
def pop_successes (len : Nat) (s : pop_state) : List (Nat × Nat) :=
  s.reads.filter fun p => p.2 < len

/-- A schedule wrapping the 32-bit cursor: 2^32 + 1 distinct calls all
performing their fetch before any miss gets to pin the cursor. -/
def wrap_schedule : List pop_step := (List.range (uintCard + 1)).map pop_step.fetch

/-! Small-step model of deferred_thread_pool::run_tasks_and_wait together
with its worker threads (thread_pool.h), instantiated at the default MPMC
queue holding Nat task ids (each id pushed once before the call).  Every
transition performs one shared-memory access; a worker blocked on the
condition variable may re-test the predicate reads at any moment, which
over-approximates every notify pattern, so no wakeup is ever missed by
the model and only safety is claimed. -/

/-- Program counter of a worker thread running deferred_thread_pool::worker. -/
inductive wpc
  | start
  | outer
  | dec
  | waiting
  | waitP
  | waitE
  | awake
  | loop
  | loopE
  | popStep
  | run (t : Nat)
  | stopped
deriving DecidableEq

/-- Program counter of the caller inside run_tasks_and_wait. -/
inductive rpc
  | rstart
  | setP
  | poll1
  | setF
  | poll2
  | rclear
  | done
deriving DecidableEq

/-- Shared state of the pool, its workers and one run_tasks_and_wait call:
the stop and process_tasks atomics, the active_threads counter, a count of
notify_all calls issued by the caller, the task queue, the invocation count
of every task id, the worker program counters, and the caller position. -/
structure pstate where
  stop : Bool
  process_tasks : Bool
  active_threads : Nat
  notifies : Nat
  tasks : mpmc_blocking_queue Nat
  invoked : Nat → Nat
  workers : List wpc
  waiter : rpc

/-- is_processing(): returns the process_tasks flag. -/
def pstate.is_processing (s : pstate) : Bool := s.process_tasks

/-- Worker states between the ++active_threads of thread entry or wakeup
and the matching --active_threads (or final break): exactly the states the
active_threads counter counts. -/
def wactive : wpc → Bool
  | .outer | .dec | .loop | .loopE | .popStep | .run _ => true
  | _ => false

/-- Number of workers the active_threads counter should be counting. -/
def active_count (ws : List wpc) : Nat := (ws.filter wactive).length

/-- Number of workers currently holding popped task t, not yet done
invoking it. -/
def run_count (ws : List wpc) (t : Nat) : Nat := ws.count (wpc.run t)

/-- Worker states reachable while process_tasks has never been observed
true and stop is down: thread entry, the outer loop head, the decrement,
and the wait predicate up to its process_tasks read. -/
def wstartup : wpc → Bool
  | .start | .outer | .dec | .waiting | .waitP => true
  | _ => false

/-- One shared-memory access of the pool system.  Worker transitions follow
worker(): entry increments active_threads; the outer loop reads stop, then
decrements active_threads and blocks on the condition variable whose
predicate reads stop, process_tasks and tasks.empty() in that order; after
waking it re-checks stop, increments active_threads, and runs the inner
loop reading process_tasks and tasks.empty(), calling tasks.try_pop and
invoking the popped task.  Caller transitions follow run_tasks_and_wait():
the initial tasks.empty() test (early return), the process_tasks = true
store plus notify_all, the first drain poll with its conditional
re-notify, the process_tasks = false store, the active_threads == 0 poll,
and the final tasks.clear(). -/
inductive pstep : pstate → pstate → Prop
  | w_start (s : pstate) (l1 l2 : List wpc)
      (h : s.workers = l1 ++ wpc.start :: l2) :
      pstep s { s with
                  workers := (l1 ++ wpc.outer :: l2),
                  active_threads := s.active_threads + 1 }
  | w_outer_stop (s : pstate) (l1 l2 : List wpc)
      (h : s.workers = l1 ++ wpc.outer :: l2) (hs : s.stop = true) :
      pstep s { s with workers := (l1 ++ wpc.stopped :: l2) }
  | w_outer_go (s : pstate) (l1 l2 : List wpc)
      (h : s.workers = l1 ++ wpc.outer :: l2) (hs : s.stop = false) :
      pstep s { s with workers := (l1 ++ wpc.dec :: l2) }
  | w_dec (s : pstate) (l1 l2 : List wpc)
      (h : s.workers = l1 ++ wpc.dec :: l2) :
      pstep s { s with
                  workers := (l1 ++ wpc.waiting :: l2),
                  active_threads := s.active_threads - 1 }
  | w_wait_stop (s : pstate) (l1 l2 : List wpc)
      (h : s.workers = l1 ++ wpc.waiting :: l2) (hs : s.stop = true) :
      pstep s { s with workers := (l1 ++ wpc.awake :: l2) }
  | w_wait_go (s : pstate) (l1 l2 : List wpc)
      (h : s.workers = l1 ++ wpc.waiting :: l2) (hs : s.stop = false) :
      pstep s { s with workers := (l1 ++ wpc.waitP :: l2) }
  | w_waitP_false (s : pstate) (l1 l2 : List wpc)
      (h : s.workers = l1 ++ wpc.waitP :: l2) (hp : s.process_tasks = false) :
      pstep s { s with workers := (l1 ++ wpc.waiting :: l2) }
  | w_waitP_true (s : pstate) (l1 l2 : List wpc)
      (h : s.workers = l1 ++ wpc.waitP :: l2) (hp : s.process_tasks = true) :
      pstep s { s with workers := (l1 ++ wpc.waitE :: l2) }
  | w_waitE_empty (s : pstate) (l1 l2 : List wpc)
      (h : s.workers = l1 ++ wpc.waitE :: l2) (he : s.tasks.empty = true) :
      pstep s { s with workers := (l1 ++ wpc.waiting :: l2) }
  | w_waitE_go (s : pstate) (l1 l2 : List wpc)
      (h : s.workers = l1 ++ wpc.waitE :: l2) (he : s.tasks.empty = false) :
      pstep s { s with workers := (l1 ++ wpc.awake :: l2) }
  | w_awake_stop (s : pstate) (l1 l2 : List wpc)
      (h : s.workers = l1 ++ wpc.awake :: l2) (hs : s.stop = true) :
      pstep s { s with workers := (l1 ++ wpc.stopped :: l2) }
  | w_awake_go (s : pstate) (l1 l2 : List wpc)
      (h : s.workers = l1 ++ wpc.awake :: l2) (hs : s.stop = false) :
      pstep s { s with
                  workers := (l1 ++ wpc.loop :: l2),
                  active_threads := s.active_threads + 1 }
  | w_loop_true (s : pstate) (l1 l2 : List wpc)
      (h : s.workers = l1 ++ wpc.loop :: l2) (hp : s.process_tasks = true) :
      pstep s { s with workers := (l1 ++ wpc.loopE :: l2) }
  | w_loop_false (s : pstate) (l1 l2 : List wpc)
      (h : s.workers = l1 ++ wpc.loop :: l2) (hp : s.process_tasks = false) :
      pstep s { s with workers := (l1 ++ wpc.outer :: l2) }
  | w_loopE_go (s : pstate) (l1 l2 : List wpc)
      (h : s.workers = l1 ++ wpc.loopE :: l2) (he : s.tasks.empty = false) :
      pstep s { s with workers := (l1 ++ wpc.popStep :: l2) }
  | w_loopE_empty (s : pstate) (l1 l2 : List wpc)
      (h : s.workers = l1 ++ wpc.loopE :: l2) (he : s.tasks.empty = true) :
      pstep s { s with workers := (l1 ++ wpc.outer :: l2) }
  | w_pop_some (s : pstate) (l1 l2 : List wpc) (t : Nat)
      (q2 : mpmc_blocking_queue Nat)
      (h : s.workers = l1 ++ wpc.popStep :: l2)
      (hq : s.tasks.try_pop = (some t, q2)) :
      pstep s { s with workers := (l1 ++ wpc.run t :: l2), tasks := q2 }
  | w_pop_none (s : pstate) (l1 l2 : List wpc)
      (h : s.workers = l1 ++ wpc.popStep :: l2)
      (hq : s.tasks.try_pop.1 = none) :
      pstep s { s with
                  workers := (l1 ++ wpc.loop :: l2),
                  tasks := s.tasks.try_pop.2 }
  | w_run (s : pstate) (l1 l2 : List wpc) (t : Nat)
      (h : s.workers = l1 ++ wpc.run t :: l2) :
      pstep s { s with
                  workers := (l1 ++ wpc.loop :: l2),
                  invoked := fun x => if x = t then s.invoked x + 1 else s.invoked x }
  | r_start_done (s : pstate) (hw : s.waiter = rpc.rstart)
      (he : s.tasks.empty = true) :
      pstep s { s with waiter := rpc.done }
  | r_start_go (s : pstate) (hw : s.waiter = rpc.rstart)
      (he : s.tasks.empty = false) :
      pstep s { s with waiter := rpc.setP }
  | r_setP (s : pstate) (hw : s.waiter = rpc.setP) :
      pstep s { s with
                  process_tasks := true,
                  notifies := s.notifies + 1,
                  waiter := rpc.poll1 }
  | r_poll1_done (s : pstate) (hw : s.waiter = rpc.poll1)
      (he : s.tasks.empty = true) :
      pstep s { s with waiter := rpc.setF }
  | r_poll1_notify (s : pstate) (hw : s.waiter = rpc.poll1)
      (he : s.tasks.empty = false)
      (ha : s.active_threads < s.tasks.size)
      (hc : s.active_threads < s.workers.length) :
      pstep s { s with notifies := s.notifies + 1 }
  | r_setF (s : pstate) (hw : s.waiter = rpc.setF) :
      pstep s { s with process_tasks := false, waiter := rpc.poll2 }
  | r_poll2 (s : pstate) (hw : s.waiter = rpc.poll2)
      (ha : s.active_threads = 0) :
      pstep s { s with waiter := rpc.rclear }
  | r_clear (s : pstate) (hw : s.waiter = rpc.rclear) :
      pstep s { s with tasks := s.tasks.clear, waiter := rpc.done }

/-- State at the moment run_tasks_and_wait is called: stop down, run flag
down, n tasks (ids 0..n-1) pushed in order, nothing invoked yet, k worker
threads created by the constructor and none counted active (as guaranteed
by create_threads before returning). -/
def pinit (n k : Nat) : pstate :=
  ⟨false, false, 0, 0, ⟨List.range n⟩, fun _ => 0,
    List.replicate k wpc.start, rpc.rstart⟩

/-- Reachability from the call entry. -/
def preach (n k : Nat) (s : pstate) : Prop :=
  Relation.ReflTransGen pstep (pinit n k) s

/-- Safety invariant of the pool system: stop stays down; every task id
below n is, at every moment, in exactly one place (queue, held by a
worker, or invoked once); the active_threads counter counts exactly the
workers past an increment; the queue is empty from the moment the first
drain poll observed it so; the run flag is up exactly between its two
stores; no worker holds a task once the second poll observed zero active
workers; and before the run flag is first raised every worker is still in
its startup region. -/
def pinv (n : Nat) (s : pstate) : Prop :=
  s.stop = false ∧
  (∀ t, s.tasks.data.count t + run_count s.workers t + s.invoked t =
    if t < n then 1 else 0) ∧
  s.active_threads = active_count s.workers ∧
  ((s.waiter = rpc.setF ∨ s.waiter = rpc.poll2 ∨ s.waiter = rpc.rclear ∨
      s.waiter = rpc.done) → s.tasks.data = []) ∧
  (s.process_tasks = true ↔ (s.waiter = rpc.poll1 ∨ s.waiter = rpc.setF)) ∧
  ((s.waiter = rpc.rclear ∨ s.waiter = rpc.done) → ∀ t, run_count s.workers t = 0) ∧
  ((s.waiter = rpc.rstart ∨ s.waiter = rpc.setP) →
    ∀ pc ∈ s.workers, wstartup pc = true)

/-- Invariant of the no-pending-tasks system (the C9 scenario): nothing is
ever notified, no flag raised, no task appears, the caller goes straight
from entry to returned, and the workers never leave their startup region. -/
def pinv_idle (s : pstate) : Prop :=
  s.stop = false ∧ s.process_tasks = false ∧ s.notifies = 0 ∧
  s.tasks.data = [] ∧ (s.waiter = rpc.rstart ∨ s.waiter = rpc.done) ∧
  (∀ pc ∈ s.workers, wstartup pc = true) ∧ (∀ t, s.invoked t = 0)

/-- C5: a failed try_pop on the nonblocking queue (claimed index at least
the vector length; the stored cursor is a 32-bit value) returns false and
pins the cursor to exactly the current vector length. -/
theorem c5_failed_pop_pins_cursor (T : Type) (q : spmc_queue T)
    (hw : q.next_slot < uintCard) (h : q.data.length ≤ q.next_slot) :
    q.try_pop.1 = none ∧ q.try_pop.2.next_slot = q.data.length ∧
      q.try_pop.2.data = q.data := by
  have hlt : ¬ q.next_slot < q.data.length := by omega
  have hlen : q.data.length < uintCard := by omega
  simp [spmc_queue.try_pop, hlt, Nat.mod_eq_of_lt hlen]

/-- C5 witness: a concrete over-shot cursor is pinned back to the length. -/
theorem c5_witness :
    (⟨3, [10, 11]⟩ : spmc_queue Nat).try_pop.1 = none ∧
      (⟨3, [10, 11]⟩ : spmc_queue Nat).try_pop.2.next_slot = 2 ∧
      (⟨3, [10, 11]⟩ : spmc_queue Nat).try_pop.2.data = [10, 11] := by
  have h := c5_failed_pop_pins_cursor Nat ⟨3, [10, 11]⟩ (by decide) (by decide)
  simpa using h

/-- C6: clearing any variant makes empty() true and a following try_pop
return false, whatever was pushed or popped before. -/
theorem c6_clear_empties_all_variants (q1 : mpmc_blocking_queue Nat)
    (q2 : spmc_blocking_queue Nat) (q3 : spmc_queue Nat) :
    (q1.clear.empty = true ∧ q1.clear.try_pop.1 = none) ∧
      (q2.clear.empty = true ∧ q2.clear.try_pop.1 = none) ∧
      (q3.clear.empty = true ∧ q3.clear.try_pop.1 = none) := by
  refine ⟨⟨rfl, rfl⟩, ⟨rfl, rfl⟩, ?_, ?_⟩
  · rfl
  · simp [spmc_queue.clear, spmc_queue.try_pop]

/-- C10: try_pop of the nonblocking queue never modifies the backing
vector; it delivers exactly the element stored at the claimed index (a
copy), so only the cursor changes. -/
theorem c10_try_pop_preserves_data (q : spmc_queue Nat) :
    q.try_pop.1 = q.data[q.next_slot]? ∧ q.try_pop.2.data = q.data := by
  by_cases h : q.next_slot < q.data.length
  · simp [spmc_queue.try_pop, h, List.getElem?_eq_getElem h, List.get_eq_getElem]
  · have := List.getElem?_eq_none (l := q.data) (n := q.next_slot) (by omega)
    simp [spmc_queue.try_pop, h, this]

/-- Pushing a list onto an MPMC queue appends it to the deque. -/
theorem push_all_m_eq : ∀ (xs : List Nat) (q : mpmc_blocking_queue Nat),
    push_all_m q xs = ⟨q.data ++ xs⟩
  | [], q => by simp [push_all_m]
  | x :: rest, q => by
    have h : push_all_m q (x :: rest) = push_all_m (q.push x) rest := rfl
    rw [h, push_all_m_eq rest]
    simp [mpmc_blocking_queue.push]

/-- Pushing a list onto an SPMC blocking queue appends it to the deque. -/
theorem push_all_sb_eq : ∀ (xs : List Nat) (q : spmc_blocking_queue Nat),
    push_all_sb q xs = ⟨q.data ++ xs⟩
  | [], q => by simp [push_all_sb]
  | x :: rest, q => by
    have h : push_all_sb q (x :: rest) = push_all_sb (q.push x) rest := rfl
    rw [h, push_all_sb_eq rest]
    simp [spmc_blocking_queue.push]

/-- Pushing a list onto the nonblocking queue appends to the vector and
leaves the cursor alone. -/
theorem push_all_s_eq : ∀ (xs : List Nat) (q : spmc_queue Nat),
    push_all_s q xs = ⟨q.next_slot, q.data ++ xs⟩
  | [], q => by simp [push_all_s]
  | x :: rest, q => by
    have h : push_all_s q (x :: rest) = push_all_s (q.push x) rest := rfl
    rw [h, push_all_s_eq rest]
    simp [spmc_queue.push]

/-- Draining an MPMC queue holding xs with one extra pop yields xs in
order followed by a failure. -/
theorem drain_m_fifo : ∀ (xs : List Nat),
    drain_m ⟨xs⟩ (xs.length + 1) = xs.map some ++ [none]
  | [] => rfl
  | x :: rest => by
    have h : drain_m ⟨x :: rest⟩ (rest.length + 1 + 1) =
        some x :: drain_m ⟨rest⟩ (rest.length + 1) := rfl
    simp only [List.length_cons, h, drain_m_fifo rest, List.map_cons, List.cons_append]

/-- Draining an SPMC blocking queue holding xs with one extra pop yields
xs in order followed by a failure. -/
theorem drain_sb_fifo : ∀ (xs : List Nat),
    drain_sb ⟨xs⟩ (xs.length + 1) = xs.map some ++ [none]
  | [] => rfl
  | x :: rest => by
    have h : drain_sb ⟨x :: rest⟩ (rest.length + 1 + 1) =
        some x :: drain_sb ⟨rest⟩ (rest.length + 1) := rfl
    simp only [List.length_cons, h, drain_sb_fifo rest, List.map_cons, List.cons_append]

/-- While the cursor stays inside the vector and below the unsigned-int
cardinality, n nonblocking pops deliver the window starting at the cursor
and advance the cursor by n. -/
theorem drain_s_window : ∀ (n c : Nat) (d : List Nat),
    c + n ≤ d.length → c + n < uintCard →
    drain_s ⟨c, d⟩ n = ((d.drop c).take n).map some ∧
      pop_iter_s ⟨c, d⟩ n = ⟨c + n, d⟩
  | 0, c, d, _, _ => by simp [drain_s, pop_iter_s]
  | n + 1, c, d, hlen, hw => by
    have hc : c < d.length := by omega
    have hmod : (c + 1) % uintCard = c + 1 := Nat.mod_eq_of_lt (by omega)
    have hpop : (⟨c, d⟩ : spmc_queue Nat).try_pop =
        (some (d.get ⟨c, hc⟩), ⟨c + 1, d⟩) := by
      simp [spmc_queue.try_pop, hc, hmod]
    have ih := drain_s_window n (c + 1) d (by omega) (by omega)
    have hdrop : d.drop c = d.get ⟨c, hc⟩ :: d.drop (c + 1) := by
      rw [List.get_eq_getElem]
      exact List.drop_eq_getElem_cons hc
    constructor
    · have h1 : drain_s ⟨c, d⟩ (n + 1) =
          (⟨c, d⟩ : spmc_queue Nat).try_pop.1 ::
            drain_s (⟨c, d⟩ : spmc_queue Nat).try_pop.2 n := rfl
      rw [h1, hpop]
      simp only [ih.1, hdrop, List.take_succ_cons, List.map_cons]
    · have h2 : pop_iter_s ⟨c, d⟩ (n + 1) =
          pop_iter_s (⟨c, d⟩ : spmc_queue Nat).try_pop.2 n := rfl
      rw [h2, hpop]
      have h3 : c + 1 + n = c + (n + 1) := by omega
      rw [ih.2, h3]

/-- Drain splits over addition of pop counts. -/
theorem drain_s_add : ∀ (a b : Nat) (q : spmc_queue Nat),
    drain_s q (a + b) = drain_s q a ++ drain_s (pop_iter_s q a) b
  | 0, b, q => by simp [drain_s, pop_iter_s]
  | a + 1, b, q => by
    have h0 : a + 1 + b = (a + b) + 1 := by omega
    have h1 : drain_s q ((a + b) + 1) =
        q.try_pop.1 :: drain_s q.try_pop.2 (a + b) := rfl
    have h2 : drain_s q (a + 1) = q.try_pop.1 :: drain_s q.try_pop.2 a := rfl
    have h3 : pop_iter_s q (a + 1) = pop_iter_s q.try_pop.2 a := rfl
    rw [h0, h1, drain_s_add a b, h2, h3, List.cons_append]

/-- On a vector at least 2^32 long every pop succeeds, and the 32-bit
cursor just counts pops modulo 2^32. -/
theorem pop_iter_s_wrap : ∀ (j c : Nat) (d : List Nat),
    c < uintCard → uintCard ≤ d.length →
    pop_iter_s ⟨c, d⟩ j = ⟨(c + j) % uintCard, d⟩
  | 0, c, d, hc, _ => by simp [pop_iter_s, Nat.mod_eq_of_lt hc]
  | j + 1, c, d, hc, hd => by
    have hclen : c < d.length := by omega
    have hpop : (⟨c, d⟩ : spmc_queue Nat).try_pop.2 =
        (⟨(c + 1) % uintCard, d⟩ : spmc_queue Nat) := by
      simp [spmc_queue.try_pop, hclen]
    have h2 : pop_iter_s ⟨c, d⟩ (j + 1) =
        pop_iter_s (⟨c, d⟩ : spmc_queue Nat).try_pop.2 j := rfl
    rw [h2, hpop, pop_iter_s_wrap j ((c + 1) % uintCard) d
      (Nat.mod_lt _ (by decide)) hd]
    congr 1
    rw [Nat.mod_add_mod]
    congr 1
    omega

/-- C3 (amended): N pushes followed by N + 1 try_pop calls on a fresh
queue of any variant deliver the tasks in push order, each pop succeeding,
with the final extra pop failing; for the nonblocking variant this needs
N below the 32-bit cursor cardinality. -/
theorem c3_fifo_drain (xs : List Nat) :
    drain_m (push_all_m (mpmc_blocking_queue.init Nat) xs) (xs.length + 1) =
        xs.map some ++ [none] ∧
      drain_sb (push_all_sb (spmc_blocking_queue.init Nat) xs) (xs.length + 1) =
        xs.map some ++ [none] ∧
      (xs.length < uintCard →
        drain_s (push_all_s (spmc_queue.init Nat) xs) (xs.length + 1) =
          xs.map some ++ [none]) := by
  refine ⟨?_, ?_, ?_⟩
  · rw [push_all_m_eq]
    simpa [mpmc_blocking_queue.init] using drain_m_fifo xs
  · rw [push_all_sb_eq]
    simpa [spmc_blocking_queue.init] using drain_sb_fifo xs
  · intro hw
    rw [push_all_s_eq]
    simp only [spmc_queue.init, List.nil_append]
    have hwin := drain_s_window xs.length 0 xs (by omega) (by omega)
    have hsplit := drain_s_add xs.length 1 ⟨0, xs⟩
    rw [hsplit, hwin.1, hwin.2]
    have hfail : drain_s ⟨0 + xs.length, xs⟩ 1 = [none] := by
      simp [drain_s, spmc_queue.try_pop]
    rw [hfail]
    simp

/-- C3 witness: a concrete three-task run on all variants. -/
theorem c3_witness :
    drain_m (push_all_m (mpmc_blocking_queue.init Nat) [4, 5, 6]) 4 =
        [some 4, some 5, some 6, none] ∧
      drain_sb (push_all_sb (spmc_blocking_queue.init Nat) [4, 5, 6]) 4 =
        [some 4, some 5, some 6, none] ∧
      drain_s (push_all_s (spmc_queue.init Nat) [4, 5, 6]) 4 =
        [some 4, some 5, some 6, none] := by
  have h := c3_fifo_drain [4, 5, 6]
  simpa using ⟨h.1, h.2.1, h.2.2 (by decide)⟩

/-- A try_pop whose claimed index is inside the vector copies that element
out and advances the 32-bit cursor. -/
theorem spmc_try_pop_success (q : spmc_queue Nat) (h : q.next_slot < q.data.length) :
    q.try_pop = (some (q.data.get ⟨q.next_slot, h⟩),
      { q with next_slot := (q.next_slot + 1) % uintCard }) := by
  simp [spmc_queue.try_pop, h]

/-- C3 counterexample: with N = 2^32 the cursor of the nonblocking queue
wraps to 0, so the extra pop after N pushes and N pops succeeds again
instead of failing: the drained list disagrees with the claimed one. -/
theorem c3_counterexample :
    drain_s (push_all_s (spmc_queue.init Nat) big_list) (big_list.length + 1) ≠
      big_list.map some ++ [none] := by
  intro heq
  have hlen : big_list.length = uintCard := by
    simp [big_list]
  rw [push_all_s_eq] at heq
  simp only [spmc_queue.init, List.nil_append, hlen] at heq
  have hsplit := drain_s_add uintCard 1 (⟨0, big_list⟩ : spmc_queue Nat)
  have hiter : pop_iter_s ⟨0, big_list⟩ uintCard = ⟨0, big_list⟩ := by
    rw [pop_iter_s_wrap uintCard 0 big_list (by decide) (by rw [hlen])]
    simp
  have hzero : (0 : Nat) < big_list.length := by
    rw [hlen]; decide
  have hsucc : drain_s ⟨0, big_list⟩ 1 =
      [(⟨0, big_list⟩ : spmc_queue Nat).try_pop.1] := rfl
  rw [hsplit, hiter, hsucc] at heq
  have hlast := congrArg List.getLast? heq
  rw [List.getLast?_concat, List.getLast?_concat] at hlast
  have hnone : (⟨0, big_list⟩ : spmc_queue Nat).try_pop.1 = none := by
    simpa using hlast
  have hsome : (⟨0, big_list⟩ : spmc_queue Nat).try_pop.1 =
      some (big_list.get ⟨0, hzero⟩) := by
    rw [spmc_try_pop_success ⟨0, big_list⟩ hzero]
  rw [hsome] at hnone
  exact Option.noConfusion hnone

/-- MPMC pops just drop elements from the front of the deque. -/
theorem pop_iter_m_drop : ∀ (J : Nat) (xs : List Nat),
    pop_iter_m ⟨xs⟩ J = ⟨xs.drop J⟩
  | 0, xs => by simp [pop_iter_m]
  | J + 1, [] => by
    have h : pop_iter_m ⟨([] : List Nat)⟩ (J + 1) = pop_iter_m ⟨[]⟩ J := rfl
    rw [h, pop_iter_m_drop J []]
    simp
  | J + 1, x :: rest => by
    have h : pop_iter_m ⟨x :: rest⟩ (J + 1) = pop_iter_m ⟨rest⟩ J := rfl
    rw [h, pop_iter_m_drop J rest]
    rfl

/-- SPMC blocking pops just drop elements from the front of the deque. -/
theorem pop_iter_sb_drop : ∀ (J : Nat) (xs : List Nat),
    pop_iter_sb ⟨xs⟩ J = ⟨xs.drop J⟩
  | 0, xs => by simp [pop_iter_sb]
  | J + 1, [] => by
    have h : pop_iter_sb ⟨([] : List Nat)⟩ (J + 1) = pop_iter_sb ⟨[]⟩ J := rfl
    rw [h, pop_iter_sb_drop J []]
    simp
  | J + 1, x :: rest => by
    have h : pop_iter_sb ⟨x :: rest⟩ (J + 1) = pop_iter_sb ⟨rest⟩ J := rfl
    rw [h, pop_iter_sb_drop J rest]
    rfl

/-- Size of the nonblocking queue when the cursor is inside the vector. -/
theorem spmc_size_of_lt (c : Nat) (d : List Nat) (h : c < d.length) :
    (⟨c, d⟩ : spmc_queue Nat).size = d.length - c := by
  simp [spmc_queue.size, h]

/-- C7 (amended): the nonblocking size() is the integer max(len - cursor, 0);
and after pushing K tasks and popping J of them (J at most K, and J below
the 32-bit cursor cardinality for the nonblocking variant) every variant
reports size K - J. -/
theorem c7_size_formula (xs : List Nat) (J : Nat) (hJ : J ≤ xs.length) :
    (∀ q : spmc_queue Nat,
        (q.size : Int) = max ((q.data.length : Int) - (q.next_slot : Int)) 0) ∧
      (pop_iter_m (push_all_m (mpmc_blocking_queue.init Nat) xs) J).size =
        xs.length - J ∧
      (pop_iter_sb (push_all_sb (spmc_blocking_queue.init Nat) xs) J).size =
        xs.length - J ∧
      (J < uintCard →
        (pop_iter_s (push_all_s (spmc_queue.init Nat) xs) J).size =
          xs.length - J) := by
  refine ⟨?_, ?_, ?_, ?_⟩
  · intro q
    unfold spmc_queue.size
    split_ifs with h
    · rw [Nat.cast_sub h.le, max_eq_left (by omega)]
    · rw [max_eq_right (by omega)]
      simp
  · rw [push_all_m_eq]
    simp only [mpmc_blocking_queue.init, List.nil_append]
    rw [pop_iter_m_drop]
    simp [mpmc_blocking_queue.size]
  · rw [push_all_sb_eq]
    simp only [spmc_blocking_queue.init, List.nil_append]
    rw [pop_iter_sb_drop]
    simp [spmc_blocking_queue.size]
  · intro hw
    rw [push_all_s_eq]
    simp only [spmc_queue.init, List.nil_append]
    rw [(drain_s_window J 0 xs (by omega) (by omega)).2]
    simp only [Nat.zero_add, spmc_queue.size]
    split_ifs with h
    · rfl
    · omega

/-- C7 witness: concrete sizes after two pops of three pushed tasks. -/
theorem c7_witness :
    (⟨1, [5, 6, 7]⟩ : spmc_queue Nat).size = 2 ∧
      (pop_iter_m (push_all_m (mpmc_blocking_queue.init Nat) [7, 8, 9]) 2).size = 1 ∧
      (pop_iter_sb (push_all_sb (spmc_blocking_queue.init Nat) [7, 8, 9]) 2).size = 1 ∧
      (pop_iter_s (push_all_s (spmc_queue.init Nat) [7, 8, 9]) 2).size = 1 := by
  have h := c7_size_formula [7, 8, 9] 2 (by decide)
  have h1 := h.1 ⟨1, [5, 6, 7]⟩
  norm_num at h1
  exact ⟨by omega, h.2.1, h.2.2.1, h.2.2.2 (by decide)⟩

/-- C7 counterexample: pushing 2^32 tasks and popping all of them wraps
the 32-bit cursor to 0, so size() reports 2^32 instead of K - J = 0. -/
theorem c7_counterexample :
    big_list.length - uintCard = 0 ∧
      (pop_iter_s (push_all_s (spmc_queue.init Nat) big_list) uintCard).size =
        uintCard ∧
      uintCard ≠ 0 := by
  have hlen : big_list.length = uintCard := by simp [big_list]
  refine ⟨by omega, ?_, by decide⟩
  rw [push_all_s_eq]
  simp only [spmc_queue.init, List.nil_append]
  rw [pop_iter_s_wrap uintCard 0 big_list (by decide) (by rw [hlen])]
  simp only [Nat.zero_add, Nat.mod_self]
  rw [spmc_size_of_lt 0 big_list (by rw [hlen]; decide)]
  omega

/-- C2 counterexample: the default constructor creates no worker threads
and stores thread count 0, below the claimed minimum of 1. -/
theorem c2_counterexample :
    deferred_thread_pool.mk_default.get_thread_count = 0 ∧
      deferred_thread_pool.mk_default.threads = 0 ∧
      ¬ 1 ≤ deferred_thread_pool.mk_default.get_thread_count := by
  decide

/-- C2 (amended): constructing with an explicit count (even 0) creates at
least one thread and stores a count of at least 1, and reset(n) stores
max(n, 1); only the default constructor leaves the pool with no threads
and a stored count of 0. -/
theorem c2_thread_minimum (n : Nat) (p : deferred_thread_pool) :
    1 ≤ (deferred_thread_pool.mk_counted n).get_thread_count ∧
      1 ≤ (deferred_thread_pool.mk_counted n).threads ∧
      (deferred_thread_pool.mk_counted n).threads =
        (deferred_thread_pool.mk_counted n).get_thread_count ∧
      (p.reset n).get_thread_count = max n 1 ∧
      1 ≤ (p.reset n).get_thread_count ∧
      1 ≤ (p.reset n).threads := by
  have hmax0 : ¬ max n 1 = 0 := by omega
  have hmax : (if max n 1 = 0 then 1 else max n 1) = max n 1 := if_neg hmax0
  refine ⟨?_, ?_, ?_, ?_, ?_, ?_⟩
  · show 1 ≤ (if n = 0 then 1 else n)
    split_ifs <;> omega
  · show 1 ≤ 0 + (if n = 0 then 1 else n)
    split_ifs <;> omega
  · show 0 + (if n = 0 then 1 else n) = (if n = 0 then 1 else n)
    omega
  · show (if max n 1 = 0 then 1 else max n 1) = max n 1
    exact hmax
  · show 1 ≤ (if max n 1 = 0 then 1 else max n 1)
    rw [hmax]
    omega
  · show 1 ≤ 0 + (if max n 1 = 0 then 1 else max n 1)
    rw [hmax]
    omega

/-- C8: clear() of the nonblocking queue wipes the vector strictly before
the atomic cursor store, so at every interleaving point around a clear, an
observer that reads cursor 0 where the cursor was nonzero before the clear
also sees the emptied vector, never stale entries. -/
theorem c8_clear_ordering (T : Type) (q : spmc_queue T) :
    q.clear = spmc_queue.clear_cursor (spmc_queue.clear_data q) ∧
      (spmc_queue.clear_data q).data = [] ∧
      (spmc_queue.clear_data q).next_slot = q.next_slot ∧
      (∀ i, i ≤ 2 → (q.clear_view i).next_slot = 0 → q.next_slot ≠ 0 →
        (q.clear_view i).data = []) := by
  refine ⟨rfl, rfl, rfl, ?_⟩
  intro i hi hcur hq
  interval_cases i
  · exact absurd hcur hq
  · rfl
  · rfl

/-- C8 witness: the post-clear observation point on a concrete queue. -/
theorem c8_witness :
    (spmc_queue.clear_view (⟨5, [3]⟩ : spmc_queue Nat) 2).data = [] :=
  (c8_clear_ordering Nat ⟨5, [3]⟩).2.2.2 2 (by decide) (by decide) (by decide)

/-- The logged call ids of a schedule are exactly its fetch ids. -/
theorem pop_exec_ids : ∀ (tr : List pop_step) (len : Nat) (s : pop_state),
    (tr.foldl (pop_step_apply len) s).reads.map Prod.fst =
      s.reads.map Prod.fst ++ fetch_ids tr
  | [], len, s => by simp [fetch_ids]
  | .fetch id :: tr, len, s => by
    have h : (pop_step.fetch id :: tr).foldl (pop_step_apply len) s =
        tr.foldl (pop_step_apply len) (pop_step_apply len s (.fetch id)) := rfl
    rw [h, pop_exec_ids tr len]
    simp [pop_step_apply, fetch_ids, List.filterMap_cons]
  | .pin id :: tr, len, s => by
    have h : (pop_step.pin id :: tr).foldl (pop_step_apply len) s =
        tr.foldl (pop_step_apply len) (pop_step_apply len s (.pin id)) := rfl
    have hr : (pop_step_apply len s (.pin id)).reads = s.reads := by
      cases hf : s.reads.find? (fun p => p.1 == id) with
      | none => simp [pop_step_apply, hf]
      | some p =>
        simp only [pop_step_apply, hf]
        split_ifs <;> rfl
    rw [h, pop_exec_ids tr len, hr]
    simp [fetch_ids, List.filterMap_cons]

/-- Unfolding lemma for pop_successes on a literal state. -/
theorem pop_successes_mk (len c : Nat) (l : List (Nat × Nat)) :
    pop_successes len ⟨c, l⟩ = l.filter fun p => p.2 < len := rfl

/-- Core invariant of the interleaved consumer model: as long as the total
number of fetches cannot wrap the 32-bit cursor, the successful claims of
any schedule are exactly the indices 0, 1, ... up to the smaller of the
fetch count and the vector length, in claim order. -/
theorem pop_exec_main (len : Nat) : ∀ (tr : List pop_step) (s : pop_state) (F : Nat),
    (pop_successes len s).map Prod.snd = List.range (min F len) →
    min s.next_slot len = min F len →
    ((∃ p ∈ s.reads, len ≤ p.2) → len ≤ F) →
    s.next_slot ≤ len + F →
    len + F + (fetch_ids tr).length < uintCard →
    (pop_successes len (tr.foldl (pop_step_apply len) s)).map Prod.snd =
      List.range (min (F + (fetch_ids tr).length) len)
  | [], s, F, h1, _, _, _, _ => by simpa [fetch_ids] using h1
  | .fetch id :: tr, s, F, h1, h2, h3, h4, hW => by
    have hlen_ids : (fetch_ids (.fetch id :: tr)).length = (fetch_ids tr).length + 1 := by
      simp [fetch_ids, List.filterMap_cons]
    rw [hlen_ids] at hW
    have hfold : (pop_step.fetch id :: tr).foldl (pop_step_apply len) s =
        tr.foldl (pop_step_apply len) (pop_step_apply len s (.fetch id)) := rfl
    have hmod : (s.next_slot + 1) % uintCard = s.next_slot + 1 :=
      Nat.mod_eq_of_lt (by omega)
    have happ : pop_step_apply len s (.fetch id) =
        ⟨s.next_slot + 1, s.reads ++ [(id, s.next_slot)]⟩ := by
      simp [pop_step_apply, hmod]
    by_cases hc : s.next_slot < len
    · have hcF : s.next_slot = min F len := by
        rw [min_eq_left hc.le] at h2
        exact h2
      have hFlt : F < len := by
        by_contra hge
        rw [min_eq_right (by omega)] at hcF
        omega
      have hcF2 : s.next_slot = F := by
        rw [min_eq_left (by omega)] at hcF
        exact hcF
      have h1' : (pop_successes len ⟨s.next_slot + 1, s.reads ++ [(id, s.next_slot)]⟩).map
          Prod.snd = List.range (min (F + 1) len) := by
        unfold pop_successes at h1 ⊢
        rw [List.filter_append, List.map_append, h1]
        have hfpair : (([(id, s.next_slot)] : List (Nat × Nat)).filter
            fun p => p.2 < len) = [(id, s.next_slot)] := by
          simp [hc]
        rw [hfpair, min_eq_left (by omega : F ≤ len),
          min_eq_left (by omega : F + 1 ≤ len), hcF2, List.range_succ]
        rfl
      have h2' : min (s.next_slot + 1) len = min (F + 1) len := by
        rw [hcF2]
      have h3' : (∃ p ∈ s.reads ++ [(id, s.next_slot)], len ≤ p.2) → len ≤ F + 1 := by
        rintro ⟨p, hp, hple⟩
        rcases List.mem_append.mp hp with hmem | hmem
        · exact le_trans (h3 ⟨p, hmem, hple⟩) (by omega)
        · have : p = (id, s.next_slot) := by simpa using hmem
          subst this
          omega
      have h4' : (⟨s.next_slot + 1, s.reads ++ [(id, s.next_slot)]⟩ : pop_state).next_slot ≤
          len + (F + 1) := by
        show s.next_slot + 1 ≤ len + (F + 1)
        omega
      have hW' : len + (F + 1) + (fetch_ids tr).length < uintCard := by omega
      rw [hfold, happ, pop_exec_main len tr _ (F + 1) h1' h2' h3' h4' hW']
      congr 1
      rw [hlen_ids]
      omega
    · have hlenF : len ≤ F := by
        have hmin : min s.next_slot len = len := min_eq_right (by omega)
        have hminF : min F len ≤ F := min_le_left F len
        omega
      have h1' : (pop_successes len ⟨s.next_slot + 1, s.reads ++ [(id, s.next_slot)]⟩).map
          Prod.snd = List.range (min (F + 1) len) := by
        unfold pop_successes at h1 ⊢
        rw [List.filter_append, List.map_append, h1]
        have hfpair : (([(id, s.next_slot)] : List (Nat × Nat)).filter
            fun p => p.2 < len) = [] := by
          simp
          omega
        rw [hfpair]
        simp only [List.map_nil, List.append_nil]
        congr 1
        omega
      have h2' : min (s.next_slot + 1) len = min (F + 1) len := by
        rw [min_eq_right (by omega), min_eq_right (by omega)]
      have h3' : (∃ p ∈ s.reads ++ [(id, s.next_slot)], len ≤ p.2) → len ≤ F + 1 :=
        fun _ => by omega
      have h4' : (⟨s.next_slot + 1, s.reads ++ [(id, s.next_slot)]⟩ : pop_state).next_slot ≤
          len + (F + 1) := by
        show s.next_slot + 1 ≤ len + (F + 1)
        omega
      have hW' : len + (F + 1) + (fetch_ids tr).length < uintCard := by omega
      rw [hfold, happ, pop_exec_main len tr _ (F + 1) h1' h2' h3' h4' hW']
      congr 1
      rw [hlen_ids]
      omega
  | .pin id :: tr, s, F, h1, h2, h3, h4, hW => by
    have hlen_ids : fetch_ids (.pin id :: tr) = fetch_ids tr := by
      simp [fetch_ids, List.filterMap_cons]
    rw [hlen_ids] at hW ⊢
    have hfold : (pop_step.pin id :: tr).foldl (pop_step_apply len) s =
        tr.foldl (pop_step_apply len) (pop_step_apply len s (.pin id)) := rfl
    rw [hfold]
    cases hf : s.reads.find? (fun p => p.1 == id) with
    | none =>
      have happ : pop_step_apply len s (.pin id) = s := by
        simp [pop_step_apply, hf]
      rw [happ]
      exact pop_exec_main len tr s F h1 h2 h3 h4 hW
    | some p =>
      by_cases hple : len ≤ p.2
      · have hmem := List.mem_of_find?_eq_some hf
        have hlenF : len ≤ F := h3 ⟨p, hmem, hple⟩
        have hmod : len % uintCard = len := Nat.mod_eq_of_lt (by omega)
        have happ : pop_step_apply len s (.pin id) = { s with next_slot := len } := by
          simp [pop_step_apply, hf, hple, hmod]
        rw [happ]
        have h2'' : min ({ s with next_slot := len } : pop_state).next_slot len =
            min F len := by
          show min len len = min F len
          rw [min_self, min_eq_right hlenF]
        have h4'' : ({ s with next_slot := len } : pop_state).next_slot ≤ len + F := by
          show len ≤ len + F
          omega
        exact pop_exec_main len tr _ F h1 h2'' h3 h4'' hW
      · have happ : pop_step_apply len s (.pin id) = s := by
          simp [pop_step_apply, hf, hple]
        rw [happ]
        exact pop_exec_main len tr s F h1 h2 h3 h4 hW

/-- C4 (amended): for every schedule of concurrent try_pop calls over a
quiesced vector of P tasks, with distinct call ids and few enough calls
that the 32-bit cursor cannot wrap (P + calls below 2^32), exactly
min(calls, P) calls succeed, the claimed indices are exactly 0..min-1
(each task delivered once, none lost), and the successful callers are
pairwise distinct (no task delivered twice). -/
theorem c4_exclusive_delivery (len : Nat) (tr : List pop_step)
    (hids : (fetch_ids tr).Nodup)
    (hW : len + (fetch_ids tr).length < uintCard) :
    (pop_successes len (pop_exec len tr)).map Prod.snd =
        List.range (min (fetch_ids tr).length len) ∧
      ((pop_successes len (pop_exec len tr)).map Prod.fst).Nodup := by
  have hbase1 : (pop_successes len (⟨0, []⟩ : pop_state)).map Prod.snd =
      List.range (min 0 len) := by
    simp [pop_successes]
  have hb4 : (⟨0, []⟩ : pop_state).next_slot ≤ len + 0 := by
    show 0 ≤ len + 0
    omega
  have hmain := pop_exec_main len tr ⟨0, []⟩ 0 hbase1 rfl
    (by rintro ⟨p, hp, _⟩; simp at hp) hb4 (by omega)
  constructor
  · simpa using hmain
  · have hid := pop_exec_ids tr len ⟨0, []⟩
    simp only [List.map_nil, List.nil_append] at hid
    have hsub : List.Sublist (pop_successes len (pop_exec len tr))
        (pop_exec len tr).reads := List.filter_sublist _
    have hsubmap : List.Sublist ((pop_successes len (pop_exec len tr)).map Prod.fst)
        ((pop_exec len tr).reads.map Prod.fst) := hsub.map Prod.fst
    have hid2 : (pop_exec len tr).reads.map Prod.fst = fetch_ids tr := hid
    rw [hid2] at hsubmap
    exact hids.sublist hsubmap

/-- C4 witness: one task, two concurrent calls (the second one misses and
pins the cursor); exactly one call succeeds, claiming index 0. -/
theorem c4_witness :
    (pop_successes 1 (pop_exec 1 [pop_step.fetch 0, pop_step.fetch 1, pop_step.pin 1])).map
        Prod.snd =
      List.range
        (min (fetch_ids [pop_step.fetch 0, pop_step.fetch 1, pop_step.pin 1]).length 1) ∧
      ((pop_successes 1
          (pop_exec 1 [pop_step.fetch 0, pop_step.fetch 1, pop_step.pin 1])).map
        Prod.fst).Nodup :=
  c4_exclusive_delivery 1 [pop_step.fetch 0, pop_step.fetch 1, pop_step.pin 1]
    (by decide) (by decide)

/-- Fetch ids of a pure fetch schedule. -/
theorem fetch_ids_map_fetch : ∀ (l : List Nat), fetch_ids (l.map pop_step.fetch) = l
  | [] => rfl
  | x :: l => by
    have h : fetch_ids ((x :: l).map pop_step.fetch) =
        x :: fetch_ids (l.map pop_step.fetch) := rfl
    rw [h, fetch_ids_map_fetch l]

/-- Running m pure fetches from a fresh state counts the cursor modulo
2^32 and logs claim i for call i. -/
theorem pop_exec_fetch_range : ∀ (m len : Nat),
    pop_exec len ((List.range m).map pop_step.fetch) =
      ⟨m % uintCard, (List.range m).map fun i => (i, i % uintCard)⟩
  | 0, len => by simp [pop_exec]
  | m + 1, len => by
    rw [List.range_succ]
    simp only [List.map_append, List.map_cons, List.map_nil]
    have hfold :
        pop_exec len ((List.range m).map pop_step.fetch ++ [pop_step.fetch m]) =
          pop_step_apply len (pop_exec len ((List.range m).map pop_step.fetch))
            (.fetch m) := by
      unfold pop_exec
      rw [List.foldl_append]
      rfl
    rw [hfold, pop_exec_fetch_range m len]
    simp only [pop_step_apply]
    rw [Nat.mod_add_mod]

/-- Successful claims of m pure fetches over a single task, for m not yet
wrapping: only the first call succeeds. -/
theorem wrap_filter : ∀ (m : Nat), m ≤ uintCard →
    ((List.range m).map (fun i => (i, i % uintCard))).filter (fun p => p.2 < 1) =
      if m = 0 then [] else [(0, 0)]
  | 0, _ => by simp
  | m + 1, hm => by
    rw [List.range_succ, List.map_append, List.filter_append,
      wrap_filter m (by omega)]
    have hmW : m % uintCard = m := Nat.mod_eq_of_lt (by omega)
    by_cases h0 : m = 0
    · subst h0
      simp
    · rw [if_neg h0, if_neg (by omega : ¬ m + 1 = 0)]
      have hnot : ¬ m < 1 := by omega
      simp [hmW, hnot, h0]

/-- C4 counterexample: over one task (P = 1), the schedule of 2^32 + 1
distinct calls that all fetch before any miss pins the cursor is a valid
concurrent execution, yet two calls succeed (min(calls, P) = 1) and the
single task (index 0) is delivered to the two distinct callers 0 and 2^32
- a duplicate delivery. -/
theorem c4_counterexample :
    (fetch_ids wrap_schedule).Nodup ∧
      (fetch_ids wrap_schedule).length = uintCard + 1 ∧
      min (fetch_ids wrap_schedule).length 1 = 1 ∧
      pop_successes 1 (pop_exec 1 wrap_schedule) = [(0, 0), (uintCard, 0)] := by
  have hids : fetch_ids wrap_schedule = List.range (uintCard + 1) :=
    fetch_ids_map_fetch _
  refine ⟨?_, ?_, ?_, ?_⟩
  · rw [hids]
    exact List.nodup_range _
  · rw [hids, List.length_range]
  · rw [hids, List.length_range]
    omega
  · have hws : wrap_schedule = (List.range (uintCard + 1)).map pop_step.fetch := rfl
    rw [hws, pop_exec_fetch_range (uintCard + 1) 1, pop_successes_mk]
    rw [List.range_succ, List.map_append, List.filter_append,
      wrap_filter uintCard (Nat.le_refl _), if_neg (by decide : ¬ uintCard = 0)]
    simp [Nat.mod_self]

/-- Queue emptiness as a statement about the deque contents. -/
theorem mpmc_empty_iff (q : mpmc_blocking_queue Nat) :
    q.empty = true ↔ q.data = [] := by
  simp [mpmc_blocking_queue.empty]

/-- Count of the run-t state across a one-worker replacement. -/
theorem run_count_mid (l1 l2 : List wpc) (pc : wpc) (t : Nat) :
    run_count (l1 ++ pc :: l2) t =
      run_count l1 t + ((if pc = wpc.run t then 1 else 0) + run_count l2 t) := by
  unfold run_count
  rw [List.count_append, List.count_cons]
  by_cases h : pc = wpc.run t
  · simp [h]
    omega
  · simp [h]

/-- Active-state count across a one-worker replacement. -/
theorem active_count_mid (l1 l2 : List wpc) (pc : wpc) :
    active_count (l1 ++ pc :: l2) =
      active_count l1 + ((if wactive pc then 1 else 0) + active_count l2) := by
  unfold active_count
  rw [List.filter_append, List.filter_cons, List.length_append]
  by_cases h : wactive pc
  · simp [h]
    omega
  · simp [h]

/-- Replacing one worker state by another, neither holding task t, keeps
the run count of t. -/
theorem run_count_swap (l1 l2 : List wpc) (pc pc2 : wpc) (t : Nat)
    (h1 : pc ≠ wpc.run t) (h2 : pc2 ≠ wpc.run t) :
    run_count (l1 ++ pc2 :: l2) t = run_count (l1 ++ pc :: l2) t := by
  rw [run_count_mid, run_count_mid, if_neg h2, if_neg h1]

/-- A worker holding a task is counted active. -/
theorem run_count_le_active (ws : List wpc) (t : Nat) :
    run_count ws t ≤ active_count ws := by
  induction ws with
  | nil => exact Nat.le_refl 0
  | cons pc ws ih =>
    have hr : run_count (pc :: ws) t =
        run_count ws t + (if pc = wpc.run t then 1 else 0) := by
      unfold run_count
      rw [List.count_cons]
      by_cases h : pc = wpc.run t
      · simp [h]
      · simp [h]
    have ha : active_count (pc :: ws) =
        (if wactive pc then 1 else 0) + active_count ws := by
      unfold active_count
      rw [List.filter_cons]
      by_cases h : wactive pc
      · simp [h]
        omega
      · simp [h]
    rw [hr, ha]
    by_cases h : pc = wpc.run t
    · subst h
      rw [if_pos rfl, show wactive (wpc.run t) = true from rfl]
      simp
      omega
    · rw [if_neg h]
      split_ifs <;> omega

/-- Workers still in the startup region hold no task. -/
theorem run_count_zero_of_startup (ws : List wpc)
    (h : ∀ pc ∈ ws, wstartup pc = true) (t : Nat) : run_count ws t = 0 := by
  unfold run_count
  rw [List.count_eq_zero]
  intro hmem
  have hbad := h _ hmem
  simp [wstartup] at hbad

/-- Freshly created workers are not counted active. -/
theorem active_count_replicate (k : Nat) :
    active_count (List.replicate k wpc.start) = 0 := by
  unfold active_count
  have h : (List.replicate k wpc.start).filter wactive = [] := by
    rw [List.filter_eq_nil_iff]
    intro a ha
    rw [List.eq_of_mem_replicate ha]
    simp [wactive]
  rw [h]
  rfl

/-- Multiplicity of an id in List.range. -/
theorem count_range : ∀ (n t : Nat), (List.range n).count t = if t < n then 1 else 0
  | 0, t => by simp
  | n + 1, t => by
    rw [List.range_succ, List.count_append, count_range n t]
    by_cases h : t = n
    · subst h
      have h1 : List.count t [t] = 1 := by simp
      rw [h1]
      split_ifs <;> omega
    · have h1 : List.count t [n] = 0 := by
        rw [List.count_singleton', if_neg (fun hh => h hh.symm)]
      rw [h1]
      split_ifs <;> omega

/-- The call-entry state satisfies the pool invariant. -/
theorem pinv_init (n k : Nat) : pinv n (pinit n k) := by
  refine ⟨rfl, ?_, ?_, ?_, ?_, ?_, ?_⟩
  · intro t
    show (List.range n).count t + run_count (List.replicate k wpc.start) t + 0 =
      if t < n then 1 else 0
    rw [count_range, run_count_zero_of_startup]
    · omega
    · intro pc hpc
      rw [List.eq_of_mem_replicate hpc]
      rfl
  · show 0 = active_count (List.replicate k wpc.start)
    rw [active_count_replicate]
  · intro hw
    rcases hw with h | h | h | h <;> exact rpc.noConfusion h
  · constructor
    · intro h
      exact Bool.noConfusion h
    · intro h
      rcases h with h | h <;> exact rpc.noConfusion h
  · intro hw
    rcases hw with h | h <;> exact rpc.noConfusion h
  · intro _ pc hpc
    rw [List.eq_of_mem_replicate hpc]
    rfl

/-- Startup closure under replacing one startup worker state by another. -/
theorem startup_swap (l1 l2 : List wpc) (pc pc2 : wpc) (ws : List wpc)
    (hws : ws = l1 ++ pc :: l2)
    (hall : ∀ x ∈ ws, wstartup x = true) (hpc2 : wstartup pc2 = true) :
    ∀ x ∈ l1 ++ pc2 :: l2, wstartup x = true := by
  intro x hx
  rcases List.mem_append.mp hx with hm | hm
  · exact hall x (by rw [hws]; exact List.mem_append_left _ hm)
  · rcases List.mem_cons.mp hm with rfl | hm2
    · exact hpc2
    · exact hall x (by rw [hws]; exact List.mem_append_right _ (List.mem_cons_of_mem _ hm2))

/-- A worker outside the startup region refutes the all-startup property. -/
theorem startup_absent (l1 l2 : List wpc) (pc : wpc) (ws : List wpc)
    (hws : ws = l1 ++ pc :: l2) (hall : ∀ x ∈ ws, wstartup x = true)
    (hpc : wstartup pc = false) : False := by
  have hb := hall pc (by rw [hws]; exact List.mem_append_right _ (List.mem_cons_self _ _))
  rw [hpc] at hb
  exact Bool.noConfusion hb

/-- The task-conservation sum survives replacing one worker state by
another when neither holds a task. -/
theorem counts_swap_preserve (n : Nat) (s : pstate) (l1 l2 : List wpc) (pc pc2 : wpc)
    (h : s.workers = l1 ++ pc :: l2)
    (hpc : ∀ t, pc ≠ wpc.run t) (hpc2 : ∀ t, pc2 ≠ wpc.run t)
    (i1 : ∀ t, s.tasks.data.count t + run_count s.workers t + s.invoked t =
      if t < n then 1 else 0) :
    ∀ t, s.tasks.data.count t + run_count (l1 ++ pc2 :: l2) t + s.invoked t =
      if t < n then 1 else 0 := by
  intro t
  rw [run_count_swap l1 l2 pc pc2 t (hpc t) (hpc2 t)]
  have h1 := i1 t
  rw [h] at h1
  exact h1

/-- Zero run counts survive a swap of two non-holding worker states. -/
theorem run_zero_swap (s : pstate) (l1 l2 : List wpc) (pc pc2 : wpc)
    (h : s.workers = l1 ++ pc :: l2)
    (hpc : ∀ t, pc ≠ wpc.run t) (hpc2 : ∀ t, pc2 ≠ wpc.run t)
    (i5 : ∀ t, run_count s.workers t = 0) :
    ∀ t, run_count (l1 ++ pc2 :: l2) t = 0 := by
  intro t
  rw [run_count_swap l1 l2 pc pc2 t (hpc t) (hpc2 t)]
  have h5 := i5 t
  rw [h] at h5
  exact h5

/-- The active_threads equation survives a swap of two worker states with
the same activity status. -/
theorem active_eq_swap (s : pstate) (l1 l2 : List wpc) (pc pc2 : wpc)
    (h : s.workers = l1 ++ pc :: l2)
    (i2 : s.active_threads = active_count s.workers)
    (heq : (if wactive pc2 then 1 else 0) = (if wactive pc then 1 else 0)) :
    s.active_threads = active_count (l1 ++ pc2 :: l2) := by
  rw [active_count_mid, heq]
  rw [h, active_count_mid] at i2
  exact i2

/-- The pool invariant is preserved by every transition. -/
theorem pinv_step (n : Nat) (s s2 : pstate) (hs : pinv n s) (hstep : pstep s s2) :
    pinv n s2 := by
  obtain ⟨i0, i1, i2, i3, i4, i5, i6⟩ := hs
  cases hstep with
  | w_start l1 l2 h =>
    refine ⟨i0, counts_swap_preserve n s l1 l2 wpc.start wpc.outer h
        (fun t hh => by cases hh) (fun t hh => by cases hh) i1, ?_, i3, i4,
      fun hw => run_zero_swap s l1 l2 wpc.start wpc.outer h
        (fun t hh => by cases hh) (fun t hh => by cases hh) (i5 hw),
      fun hw => startup_swap l1 l2 wpc.start wpc.outer s.workers h (i6 hw) rfl⟩
    show s.active_threads + 1 = active_count (l1 ++ wpc.outer :: l2)
    rw [active_count_mid]
    have h2 := i2
    rw [h, active_count_mid] at h2
    simp [wactive] at h2 ⊢
    omega
  | w_outer_stop l1 l2 h hs2 =>
    rw [i0] at hs2
    exact Bool.noConfusion hs2
  | w_outer_go l1 l2 h hs2 =>
    exact ⟨i0, counts_swap_preserve n s l1 l2 wpc.outer wpc.dec h
        (fun t hh => by cases hh) (fun t hh => by cases hh) i1,
      active_eq_swap s l1 l2 wpc.outer wpc.dec h i2 rfl, i3, i4,
      fun hw => run_zero_swap s l1 l2 wpc.outer wpc.dec h
        (fun t hh => by cases hh) (fun t hh => by cases hh) (i5 hw),
      fun hw => startup_swap l1 l2 wpc.outer wpc.dec s.workers h (i6 hw) rfl⟩
  | w_dec l1 l2 h =>
    refine ⟨i0, counts_swap_preserve n s l1 l2 wpc.dec wpc.waiting h
        (fun t hh => by cases hh) (fun t hh => by cases hh) i1, ?_, i3, i4,
      fun hw => run_zero_swap s l1 l2 wpc.dec wpc.waiting h
        (fun t hh => by cases hh) (fun t hh => by cases hh) (i5 hw),
      fun hw => startup_swap l1 l2 wpc.dec wpc.waiting s.workers h (i6 hw) rfl⟩
    show s.active_threads - 1 = active_count (l1 ++ wpc.waiting :: l2)
    rw [active_count_mid]
    have h2 := i2
    rw [h, active_count_mid] at h2
    simp [wactive] at h2 ⊢
    omega
  | w_wait_stop l1 l2 h hs2 =>
    rw [i0] at hs2
    exact Bool.noConfusion hs2
  | w_wait_go l1 l2 h hs2 =>
    exact ⟨i0, counts_swap_preserve n s l1 l2 wpc.waiting wpc.waitP h
        (fun t hh => by cases hh) (fun t hh => by cases hh) i1,
      active_eq_swap s l1 l2 wpc.waiting wpc.waitP h i2 rfl, i3, i4,
      fun hw => run_zero_swap s l1 l2 wpc.waiting wpc.waitP h
        (fun t hh => by cases hh) (fun t hh => by cases hh) (i5 hw),
      fun hw => startup_swap l1 l2 wpc.waiting wpc.waitP s.workers h (i6 hw) rfl⟩
  | w_waitP_false l1 l2 h hp =>
    exact ⟨i0, counts_swap_preserve n s l1 l2 wpc.waitP wpc.waiting h
        (fun t hh => by cases hh) (fun t hh => by cases hh) i1,
      active_eq_swap s l1 l2 wpc.waitP wpc.waiting h i2 rfl, i3, i4,
      fun hw => run_zero_swap s l1 l2 wpc.waitP wpc.waiting h
        (fun t hh => by cases hh) (fun t hh => by cases hh) (i5 hw),
      fun hw => startup_swap l1 l2 wpc.waitP wpc.waiting s.workers h (i6 hw) rfl⟩
  | w_waitP_true l1 l2 h hp =>
    refine ⟨i0, counts_swap_preserve n s l1 l2 wpc.waitP wpc.waitE h
        (fun t hh => by cases hh) (fun t hh => by cases hh) i1,
      active_eq_swap s l1 l2 wpc.waitP wpc.waitE h i2 rfl, i3, i4,
      fun hw => run_zero_swap s l1 l2 wpc.waitP wpc.waitE h
        (fun t hh => by cases hh) (fun t hh => by cases hh) (i5 hw), ?_⟩
    intro hw
    exfalso
    have h4 := i4.mp hp
    rcases hw with hw | hw <;> rcases h4 with h4 | h4 <;>
      rw [hw] at h4 <;> exact rpc.noConfusion h4
  | w_waitE_empty l1 l2 h he =>
    refine ⟨i0, counts_swap_preserve n s l1 l2 wpc.waitE wpc.waiting h
        (fun t hh => by cases hh) (fun t hh => by cases hh) i1,
      active_eq_swap s l1 l2 wpc.waitE wpc.waiting h i2 rfl, i3, i4,
      fun hw => run_zero_swap s l1 l2 wpc.waitE wpc.waiting h
        (fun t hh => by cases hh) (fun t hh => by cases hh) (i5 hw), ?_⟩
    intro hw
    exact (startup_absent l1 l2 wpc.waitE s.workers h (i6 hw) rfl).elim
  | w_waitE_go l1 l2 h he =>
    refine ⟨i0, counts_swap_preserve n s l1 l2 wpc.waitE wpc.awake h
        (fun t hh => by cases hh) (fun t hh => by cases hh) i1,
      active_eq_swap s l1 l2 wpc.waitE wpc.awake h i2 rfl, i3, i4,
      fun hw => run_zero_swap s l1 l2 wpc.waitE wpc.awake h
        (fun t hh => by cases hh) (fun t hh => by cases hh) (i5 hw), ?_⟩
    intro hw
    exact (startup_absent l1 l2 wpc.waitE s.workers h (i6 hw) rfl).elim
  | w_awake_stop l1 l2 h hs2 =>
    rw [i0] at hs2
    exact Bool.noConfusion hs2
  | w_awake_go l1 l2 h hs2 =>
    refine ⟨i0, counts_swap_preserve n s l1 l2 wpc.awake wpc.loop h
        (fun t hh => by cases hh) (fun t hh => by cases hh) i1, ?_, i3, i4,
      fun hw => run_zero_swap s l1 l2 wpc.awake wpc.loop h
        (fun t hh => by cases hh) (fun t hh => by cases hh) (i5 hw), ?_⟩
    · show s.active_threads + 1 = active_count (l1 ++ wpc.loop :: l2)
      rw [active_count_mid]
      have h2 := i2
      rw [h, active_count_mid] at h2
      simp [wactive] at h2 ⊢
      omega
    · intro hw
      exact (startup_absent l1 l2 wpc.awake s.workers h (i6 hw) rfl).elim
  | w_loop_true l1 l2 h hp =>
    refine ⟨i0, counts_swap_preserve n s l1 l2 wpc.loop wpc.loopE h
        (fun t hh => by cases hh) (fun t hh => by cases hh) i1,
      active_eq_swap s l1 l2 wpc.loop wpc.loopE h i2 rfl, i3, i4,
      fun hw => run_zero_swap s l1 l2 wpc.loop wpc.loopE h
        (fun t hh => by cases hh) (fun t hh => by cases hh) (i5 hw), ?_⟩
    intro hw
    exact (startup_absent l1 l2 wpc.loop s.workers h (i6 hw) rfl).elim
  | w_loop_false l1 l2 h hp =>
    refine ⟨i0, counts_swap_preserve n s l1 l2 wpc.loop wpc.outer h
        (fun t hh => by cases hh) (fun t hh => by cases hh) i1,
      active_eq_swap s l1 l2 wpc.loop wpc.outer h i2 rfl, i3, i4,
      fun hw => run_zero_swap s l1 l2 wpc.loop wpc.outer h
        (fun t hh => by cases hh) (fun t hh => by cases hh) (i5 hw), ?_⟩
    intro hw
    exact (startup_absent l1 l2 wpc.loop s.workers h (i6 hw) rfl).elim
  | w_loopE_go l1 l2 h he =>
    refine ⟨i0, counts_swap_preserve n s l1 l2 wpc.loopE wpc.popStep h
        (fun t hh => by cases hh) (fun t hh => by cases hh) i1,
      active_eq_swap s l1 l2 wpc.loopE wpc.popStep h i2 rfl, i3, i4,
      fun hw => run_zero_swap s l1 l2 wpc.loopE wpc.popStep h
        (fun t hh => by cases hh) (fun t hh => by cases hh) (i5 hw), ?_⟩
    intro hw
    exact (startup_absent l1 l2 wpc.loopE s.workers h (i6 hw) rfl).elim
  | w_loopE_empty l1 l2 h he =>
    refine ⟨i0, counts_swap_preserve n s l1 l2 wpc.loopE wpc.outer h
        (fun t hh => by cases hh) (fun t hh => by cases hh) i1,
      active_eq_swap s l1 l2 wpc.loopE wpc.outer h i2 rfl, i3, i4,
      fun hw => run_zero_swap s l1 l2 wpc.loopE wpc.outer h
        (fun t hh => by cases hh) (fun t hh => by cases hh) (i5 hw), ?_⟩
    intro hw
    exact (startup_absent l1 l2 wpc.loopE s.workers h (i6 hw) rfl).elim
  | w_pop_some l1 l2 t q2 h hq =>
    have hdata : s.tasks.data = t :: q2.data := by
      cases hds : s.tasks.data with
      | nil =>
        have he : s.tasks.try_pop = (none, s.tasks) := by
          unfold mpmc_blocking_queue.try_pop
          rw [hds]
        rw [he] at hq
        injection hq with h1 _
        exact Option.noConfusion h1
      | cons a rest =>
        have he : s.tasks.try_pop = (some a, ⟨rest⟩) := by
          unfold mpmc_blocking_queue.try_pop
          rw [hds]
        rw [he] at hq
        injection hq with h1 h2
        injection h1 with h1
        rw [h1, ← h2]
    refine ⟨i0, ?_, ?_, ?_, i4, ?_, ?_⟩
    · intro t2
      have h1 := i1 t2
      rw [h, hdata, run_count_mid, List.count_cons] at h1
      show q2.data.count t2 + run_count (l1 ++ wpc.run t :: l2) t2 + s.invoked t2 =
        if t2 < n then 1 else 0
      rw [run_count_mid]
      by_cases ht : t2 = t
      · subst ht
        simp at h1 ⊢
        omega
      · simp [ht, Ne.symm ht] at h1 ⊢
        omega
    · show s.active_threads = active_count (l1 ++ wpc.run t :: l2)
      rw [active_count_mid]
      have h2 := i2
      rw [h, active_count_mid] at h2
      simp [wactive] at h2 ⊢
      omega
    · intro hw
      have h3 := i3 hw
      rw [hdata] at h3
      exact (List.cons_ne_nil _ _ h3).elim
    · intro hw
      have h3 := i3 (by
        rcases hw with hw | hw
        · exact Or.inr (Or.inr (Or.inl hw))
        · exact Or.inr (Or.inr (Or.inr hw)))
      rw [hdata] at h3
      exact (List.cons_ne_nil _ _ h3).elim
    · intro hw
      exact (startup_absent l1 l2 wpc.popStep s.workers h (i6 hw) rfl).elim
  | w_pop_none l1 l2 h hq =>
    have hdata : s.tasks.data = [] := by
      cases hds : s.tasks.data with
      | nil => rfl
      | cons a rest =>
        have he : s.tasks.try_pop = (some a, ⟨rest⟩) := by
          unfold mpmc_blocking_queue.try_pop
          rw [hds]
        rw [he] at hq
        exact Option.noConfusion hq
    have htp2 : s.tasks.try_pop.2 = s.tasks := by
      unfold mpmc_blocking_queue.try_pop
      rw [hdata]
    refine ⟨i0, ?_, active_eq_swap s l1 l2 wpc.popStep wpc.loop h i2 rfl, ?_, i4, ?_, ?_⟩
    · intro t2
      show s.tasks.try_pop.2.data.count t2 + run_count (l1 ++ wpc.loop :: l2) t2 +
        s.invoked t2 = if t2 < n then 1 else 0
      rw [htp2, run_count_swap l1 l2 wpc.popStep wpc.loop t2
        (by intro hh; cases hh) (by intro hh; cases hh)]
      have h1 := i1 t2
      rw [h] at h1
      exact h1
    · intro hw
      show s.tasks.try_pop.2.data = []
      rw [htp2]
      exact i3 hw
    · intro hw
      exact run_zero_swap s l1 l2 wpc.popStep wpc.loop h
        (fun t hh => by cases hh) (fun t hh => by cases hh) (i5 hw)
    · intro hw
      exact (startup_absent l1 l2 wpc.popStep s.workers h (i6 hw) rfl).elim
  | w_run l1 l2 t h =>
    refine ⟨i0, ?_, ?_, i3, i4, ?_, ?_⟩
    · intro t2
      have h1 := i1 t2
      rw [h, run_count_mid] at h1
      show s.tasks.data.count t2 + run_count (l1 ++ wpc.loop :: l2) t2 +
        (if t2 = t then s.invoked t2 + 1 else s.invoked t2) = if t2 < n then 1 else 0
      rw [run_count_mid]
      by_cases ht : t2 = t
      · subst ht
        simp at h1 ⊢
        omega
      · simp [ht, Ne.symm ht] at h1 ⊢
        omega
    · show s.active_threads = active_count (l1 ++ wpc.loop :: l2)
      rw [active_count_mid]
      have h2 := i2
      rw [h, active_count_mid] at h2
      simp [wactive] at h2 ⊢
      omega
    · intro hw t2
      have h5 := i5 hw t2
      rw [h, run_count_mid] at h5
      show run_count (l1 ++ wpc.loop :: l2) t2 = 0
      rw [run_count_mid, if_neg (show wpc.loop ≠ wpc.run t2 from by intro hh; cases hh)]
      split_ifs at h5 <;> omega
    · intro hw
      exact (startup_absent l1 l2 (wpc.run t) s.workers h (i6 hw) rfl).elim
  | r_start_done hw he =>
    have hdata := (mpmc_empty_iff s.tasks).mp he
    refine ⟨i0, i1, i2, ?_, ?_, ?_, ?_⟩
    · intro _
      exact hdata
    · constructor
      · intro hp
        have h4 := i4.mp hp
        rcases h4 with h4 | h4 <;> rw [hw] at h4 <;> exact rpc.noConfusion h4
      · intro hcon
        rcases hcon with hcon | hcon <;> exact rpc.noConfusion hcon
    · intro _ t
      exact run_count_zero_of_startup s.workers (i6 (Or.inl hw)) t
    · intro hcon
      rcases hcon with hcon | hcon <;> exact rpc.noConfusion hcon
  | r_start_go hw he =>
    refine ⟨i0, i1, i2, ?_, ?_, ?_, ?_⟩
    · intro hcon
      rcases hcon with hcon | hcon | hcon | hcon <;> exact rpc.noConfusion hcon
    · constructor
      · intro hp
        have h4 := i4.mp hp
        rcases h4 with h4 | h4 <;> rw [hw] at h4 <;> exact rpc.noConfusion h4
      · intro hcon
        rcases hcon with hcon | hcon <;> exact rpc.noConfusion hcon
    · intro hcon
      rcases hcon with hcon | hcon <;> exact rpc.noConfusion hcon
    · intro _
      exact i6 (Or.inl hw)
  | r_setP hw =>
    refine ⟨i0, i1, i2, ?_, ?_, ?_, ?_⟩
    · intro hcon
      rcases hcon with hcon | hcon | hcon | hcon <;> exact rpc.noConfusion hcon
    · constructor
      · intro _
        exact Or.inl rfl
      · intro _
        rfl
    · intro hcon
      rcases hcon with hcon | hcon <;> exact rpc.noConfusion hcon
    · intro hcon
      rcases hcon with hcon | hcon <;> exact rpc.noConfusion hcon
  | r_poll1_done hw he =>
    have hdata := (mpmc_empty_iff s.tasks).mp he
    refine ⟨i0, i1, i2, ?_, ?_, ?_, ?_⟩
    · intro _
      exact hdata
    · constructor
      · intro _
        exact Or.inr rfl
      · intro _
        exact i4.mpr (Or.inl hw)
    · intro hcon
      rcases hcon with hcon | hcon <;> exact rpc.noConfusion hcon
    · intro hcon
      rcases hcon with hcon | hcon <;> exact rpc.noConfusion hcon
  | r_poll1_notify hw he ha hc =>
    exact ⟨i0, i1, i2, i3, i4, i5, i6⟩
  | r_setF hw =>
    refine ⟨i0, i1, i2, ?_, ?_, ?_, ?_⟩
    · intro _
      exact i3 (Or.inl hw)
    · constructor
      · intro hp
        exact Bool.noConfusion hp
      · intro hcon
        rcases hcon with hcon | hcon <;> exact rpc.noConfusion hcon
    · intro hcon
      rcases hcon with hcon | hcon <;> exact rpc.noConfusion hcon
    · intro hcon
      rcases hcon with hcon | hcon <;> exact rpc.noConfusion hcon
  | r_poll2 hw ha =>
    refine ⟨i0, i1, i2, ?_, ?_, ?_, ?_⟩
    · intro _
      exact i3 (Or.inr (Or.inl hw))
    · constructor
      · intro hp
        have h4 := i4.mp hp
        rcases h4 with h4 | h4 <;> rw [hw] at h4 <;> exact rpc.noConfusion h4
      · intro hcon
        rcases hcon with hcon | hcon <;> exact rpc.noConfusion hcon
    · intro _ t
      have hc2 := run_count_le_active s.workers t
      rw [← i2, ha] at hc2
      show run_count s.workers t = 0
      omega
    · intro hcon
      rcases hcon with hcon | hcon <;> exact rpc.noConfusion hcon
  | r_clear hw =>
    have hdata := i3 (Or.inr (Or.inr (Or.inl hw)))
    refine ⟨i0, ?_, i2, ?_, ?_, ?_, ?_⟩
    · intro t
      have h1 := i1 t
      rw [hdata] at h1
      exact h1
    · intro _
      rfl
    · constructor
      · intro hp
        have h4 := i4.mp hp
        rcases h4 with h4 | h4 <;> rw [hw] at h4 <;> exact rpc.noConfusion h4
      · intro hcon
        rcases hcon with hcon | hcon <;> exact rpc.noConfusion hcon
    · intro _ t
      exact i5 (Or.inl hw) t
    · intro hcon
      rcases hcon with hcon | hcon <;> exact rpc.noConfusion hcon

/-- Every reachable state of the pool system satisfies the invariant. -/
theorem pinv_reachable (n k : Nat) (s : pstate) (h : preach n k s) : pinv n s := by
  induction h with
  | refl => exact pinv_init n k
  | tail hab hbc ih => exact pinv_step n _ _ ih hbc

/-- C1: whenever run_tasks_and_wait() returns (the caller reaches done in
any interleaving of the workers with the call), the pool queue is empty,
is_processing() returns false, and every task pushed before the call has
been invoked exactly once. -/
theorem c1_run_tasks_and_wait_post (n k : Nat) (s : pstate)
    (hre : preach n k s) (hdone : s.waiter = rpc.done) :
    s.tasks.data = [] ∧ s.is_processing = false ∧ ∀ t, t < n → s.invoked t = 1 := by
  obtain ⟨i0, i1, i2, i3, i4, i5, i6⟩ := pinv_reachable n k s hre
  have hdata : s.tasks.data = [] := i3 (Or.inr (Or.inr (Or.inr hdone)))
  have hrun := i5 (Or.inr hdone)
  refine ⟨hdata, ?_, ?_⟩
  · show s.process_tasks = false
    cases hb : s.process_tasks with
    | false => rfl
    | true =>
      have h4 := i4.mp hb
      rcases h4 with h4 | h4 <;> rw [hdone] at h4 <;> exact rpc.noConfusion h4
  · intro t ht
    have h1 := i1 t
    rw [hdata, hrun t, if_pos ht] at h1
    simpa using h1

/-- C1 witness: a pool with no pending tasks and one worker reaches done
in one step, and the postconditions hold there. -/
theorem c1_witness :
    ({ pinit 0 1 with waiter := rpc.done } : pstate).tasks.data = [] ∧
      ({ pinit 0 1 with waiter := rpc.done } : pstate).is_processing = false ∧
      ∀ t, t < 0 → ({ pinit 0 1 with waiter := rpc.done } : pstate).invoked t = 1 :=
  c1_run_tasks_and_wait_post 0 1 _
    (Relation.ReflTransGen.single (pstep.r_start_done (pinit 0 1) rfl rfl)) rfl

/-- The zero-task call state satisfies the idle invariant. -/
theorem pinv_idle_init (k : Nat) : pinv_idle (pinit 0 k) := by
  refine ⟨rfl, rfl, rfl, rfl, Or.inl rfl, ?_, fun t => rfl⟩
  intro pc hpc
  rw [List.eq_of_mem_replicate hpc]
  rfl

/-- The idle invariant is preserved by every transition. -/
theorem pinv_idle_step (s s2 : pstate) (hs : pinv_idle s) (hstep : pstep s s2) :
    pinv_idle s2 := by
  obtain ⟨j0, j1, j2, j3, j4, j5, j6⟩ := hs
  cases hstep with
  | w_start l1 l2 h =>
    exact ⟨j0, j1, j2, j3, j4,
      startup_swap l1 l2 wpc.start wpc.outer s.workers h j5 rfl, j6⟩
  | w_outer_stop l1 l2 h hs2 =>
    rw [j0] at hs2
    exact Bool.noConfusion hs2
  | w_outer_go l1 l2 h hs2 =>
    exact ⟨j0, j1, j2, j3, j4,
      startup_swap l1 l2 wpc.outer wpc.dec s.workers h j5 rfl, j6⟩
  | w_dec l1 l2 h =>
    exact ⟨j0, j1, j2, j3, j4,
      startup_swap l1 l2 wpc.dec wpc.waiting s.workers h j5 rfl, j6⟩
  | w_wait_stop l1 l2 h hs2 =>
    rw [j0] at hs2
    exact Bool.noConfusion hs2
  | w_wait_go l1 l2 h hs2 =>
    exact ⟨j0, j1, j2, j3, j4,
      startup_swap l1 l2 wpc.waiting wpc.waitP s.workers h j5 rfl, j6⟩
  | w_waitP_false l1 l2 h hp =>
    exact ⟨j0, j1, j2, j3, j4,
      startup_swap l1 l2 wpc.waitP wpc.waiting s.workers h j5 rfl, j6⟩
  | w_waitP_true l1 l2 h hp =>
    rw [j1] at hp
    exact Bool.noConfusion hp
  | w_waitE_empty l1 l2 h he =>
    exact (startup_absent l1 l2 wpc.waitE s.workers h j5 rfl).elim
  | w_waitE_go l1 l2 h he =>
    exact (startup_absent l1 l2 wpc.waitE s.workers h j5 rfl).elim
  | w_awake_stop l1 l2 h hs2 =>
    exact (startup_absent l1 l2 wpc.awake s.workers h j5 rfl).elim
  | w_awake_go l1 l2 h hs2 =>
    exact (startup_absent l1 l2 wpc.awake s.workers h j5 rfl).elim
  | w_loop_true l1 l2 h hp =>
    exact (startup_absent l1 l2 wpc.loop s.workers h j5 rfl).elim
  | w_loop_false l1 l2 h hp =>
    exact (startup_absent l1 l2 wpc.loop s.workers h j5 rfl).elim
  | w_loopE_go l1 l2 h he =>
    exact (startup_absent l1 l2 wpc.loopE s.workers h j5 rfl).elim
  | w_loopE_empty l1 l2 h he =>
    exact (startup_absent l1 l2 wpc.loopE s.workers h j5 rfl).elim
  | w_pop_some l1 l2 t q2 h hq =>
    exact (startup_absent l1 l2 wpc.popStep s.workers h j5 rfl).elim
  | w_pop_none l1 l2 h hq =>
    exact (startup_absent l1 l2 wpc.popStep s.workers h j5 rfl).elim
  | w_run l1 l2 t h =>
    exact (startup_absent l1 l2 (wpc.run t) s.workers h j5 rfl).elim
  | r_start_done hw he =>
    exact ⟨j0, j1, j2, j3, Or.inr rfl, j5, j6⟩
  | r_start_go hw he =>
    rw [(mpmc_empty_iff s.tasks).mpr j3] at he
    exact Bool.noConfusion he
  | r_setP hw =>
    rcases j4 with j | j <;> rw [j] at hw <;> exact rpc.noConfusion hw
  | r_poll1_done hw he =>
    rcases j4 with j | j <;> rw [j] at hw <;> exact rpc.noConfusion hw
  | r_poll1_notify hw he ha hc =>
    rcases j4 with j | j <;> rw [j] at hw <;> exact rpc.noConfusion hw
  | r_setF hw =>
    rcases j4 with j | j <;> rw [j] at hw <;> exact rpc.noConfusion hw
  | r_poll2 hw ha =>
    rcases j4 with j | j <;> rw [j] at hw <;> exact rpc.noConfusion hw
  | r_clear hw =>
    rcases j4 with j | j <;> rw [j] at hw <;> exact rpc.noConfusion hw

/-- Every state reachable from a zero-task call stays idle. -/
theorem pinv_idle_reachable (k : Nat) (s : pstate) (h : preach 0 k s) :
    pinv_idle s := by
  induction h with
  | refl => exact pinv_idle_init k
  | tail hab hbc ih => exact pinv_idle_step _ _ ih hbc

/-- C9: if the pool queue is empty when run_tasks_and_wait() is called,
then at every reachable moment of the call no notify_all has been issued,
is_processing() is false, the queue is unchanged (still empty), nothing
has been invoked, and the caller is either still at entry or already
returned (the call is an immediate no-op). -/
theorem c9_empty_call_noop (k : Nat) (s : pstate) (hre : preach 0 k s) :
    s.is_processing = false ∧ s.notifies = 0 ∧ s.tasks.data = [] ∧
      (s.waiter = rpc.rstart ∨ s.waiter = rpc.done) ∧ ∀ t, s.invoked t = 0 := by
  obtain ⟨j0, j1, j2, j3, j4, j5, j6⟩ := pinv_idle_reachable k s hre
  exact ⟨j1, j2, j3, j4, j6⟩

/-- C9 witness: the entry state of the zero-task call. -/
theorem c9_witness :
    (pinit 0 1).is_processing = false ∧ (pinit 0 1).notifies = 0 ∧
      (pinit 0 1).tasks.data = [] ∧
      ((pinit 0 1).waiter = rpc.rstart ∨ (pinit 0 1).waiter = rpc.done) ∧
      ∀ t, (pinit 0 1).invoked t = 0 :=
  c9_empty_call_noop 1 (pinit 0 1) Relation.ReflTransGen.refl

end ConcurrencyUtils
